import Mathlib

/-!
Verification of the `weval` image/intrinsics layer.

Shallow embedding of `src/image.rs` and `src/intrinsics.rs`:
- machine integers (`u8`, `u32`, `u64`, `u128`, `usize`) are modelled as `Nat`,
  with explicit bounds hypotheses / `% 2 ^ w` where overflow matters;
- Rust `anyhow::Result<T>` becomes `Except Err T`;
- a Rust panic (failed `assert!`, out-of-bounds slice index, `.unwrap()` on
  `None`) is modelled as `Option.none` on an outer `Option` layer, kept
  distinct from recoverable `Except.error` results;
- `BTreeMap` values built from an enumeration with strictly increasing keys
  are modelled as association lists (`List (Nat × _)`) with first-match lookup;
- byte buffers (`Vec<u8>`) are `List Nat`, each element intended `< 256`.
-/

namespace Weval

/-- waffle entity ids (`Memory`, `Global`, `Table`, `Func`, `Value`, `Signature`)
are dense indices; modelled as `Nat`. -/
abbrev MemoryId := Nat
abbrev GlobalId := Nat
abbrev TableId := Nat
abbrev FuncId := Nat
abbrev ValueId := Nat
abbrev SigId := Nat

/-- waffle `Type` (wasm value types). -/
inductive Ty where
  | i32
  | i64
  | f32
  | f64
  | v128
  | funcref
  deriving DecidableEq, Repr

/-- Recoverable error conditions (`anyhow!` in the source): out-of-bounds
memory access and invalid UTF-8 in `read_str`. -/
inductive Err where
  | oob
  | utf8
  deriving DecidableEq, Repr

/-- `MemImage` from `image.rs`: a byte buffer plus its logical length. -/
structure MemImage where
  image : List Nat
  len : Nat
  deriving DecidableEq, Repr

/-- waffle `MemorySegment`: an initialization segment. -/
structure MemorySegment where
  offset : Nat
  data : List Nat
  deriving DecidableEq, Repr

/-- waffle `MemoryData`: declared initial pages plus segments. -/
structure MemoryData where
  initial_pages : Nat
  segments : List MemorySegment
  deriving DecidableEq, Repr

/-- waffle global declaration: a value type and an optional constant
initializer given as raw bits (`Option<u64>`). -/
structure GlobalData where
  ty : Ty
  value : Option Nat
  deriving DecidableEq, Repr

/-- waffle table declaration: optional function-element list. -/
structure TableData where
  func_elements : Option (List FuncId)
  deriving DecidableEq, Repr

/-- waffle function signature: parameter and return types. -/
structure SignatureData where
  params : List Ty
  returns : List Ty
  deriving DecidableEq, Repr

/-- waffle `Operator`, restricted to what `intrinsics.rs` inspects:
`I32Const { value }` versus any other operator. -/
inductive Operator where
  | i32const (value : Nat)
  | otherOp
  deriving DecidableEq, Repr

/-- waffle `ValueDef`: the code only distinguishes
`ValueDef::Operator(Operator::I32Const ...)` from everything else
(block params, aliases, other operators). -/
inductive ValueDef where
  | operator (op : Operator)
  | otherDef
  deriving DecidableEq, Repr

/-- waffle `BlockTarget`: target block id plus argument value ids. -/
structure BlockTarget where
  block : Nat
  args : List ValueId
  deriving DecidableEq, Repr

/-- waffle `Terminator`, restricted to what the code matches on:
`Return { values }`, `Br { target }`, and anything else
(`CondBr`, `Select`, `Unreachable`, ...). -/
inductive Terminator where
  | ret (values : List ValueId)
  | br (target : BlockTarget)
  | otherTerm
  deriving DecidableEq, Repr

/-- A basic block: parameters `(type, value id)` and a terminator. -/
structure Block where
  params : List (Ty × ValueId)
  terminator : Terminator
  deriving DecidableEq, Repr

/-- A parsed function body: blocks (indexed by block id), the entry block id,
and the value-definition table (indexed by value id). -/
structure FunctionBody where
  blocks : List Block
  entry : Nat
  values : List ValueDef
  deriving DecidableEq, Repr

/-- waffle `ImportKind`: a function import or some other kind. -/
inductive ImportKind where
  | func (f : FuncId)
  | otherImport
  deriving DecidableEq, Repr

/-- waffle `Import`: declaring module namespace, name, kind. -/
structure Import where
  module : String
  name : String
  kind : ImportKind
  deriving DecidableEq, Repr

/-- waffle `ExportKind`. -/
inductive ExportKind where
  | func (f : FuncId)
  | otherExport
  deriving DecidableEq, Repr

/-- waffle `Export`: name and kind. -/
structure Export where
  name : String
  kind : ExportKind
  deriving DecidableEq, Repr

/-- A function declaration: its signature id and, when it is a local
(non-imported) function, its body.  `body.parse(module)` from the source is
waffle-external; bodies are modelled as already parsed, so `FuncDecl.body`
plays the role of `FuncDecl::body()` (`None` for imported functions). -/
structure FuncDecl where
  sig : SigId
  body : Option FunctionBody
  deriving DecidableEq, Repr

/-- The parts of a waffle `Module` this layer consumes.  Entity tables are
lists indexed by the dense ids. -/
structure WModule where
  memories : List MemoryData
  globals : List GlobalData
  tables : List TableData
  funcs : List FuncDecl
  signatures : List SignatureData
  imports : List Import
  exports : List Export
  deriving DecidableEq, Repr

/-- `WasmVal` (from `crate::value`, outside `src/`): a typed constant. -/
inductive WasmVal where
  | i32 (bits : Nat)
  | i64 (bits : Nat)
  | f32 (bits : Nat)
  | f64 (bits : Nat)
  deriving DecidableEq, Repr

/-- Modelled from the spec: `WasmVal::from_bits` (in `crate::value`, a file
not under `src/`) decodes a global's raw initializer bits "according to the
global's declared value type into a typed value"; globals whose type has no
such decoding contribute nothing to the mapping. -/
def WasmVal.from_bits (ty : Ty) (bits : Nat) : Option WasmVal :=
  match ty with
  | .i32 => some (.i32 (bits % 2 ^ 32))
  | .i64 => some (.i64 (bits % 2 ^ 64))
  | .f32 => some (.f32 (bits % 2 ^ 32))
  | .f64 => some (.f64 (bits % 2 ^ 64))
  | _ => none

/-- First-match association-list lookup, modelling `BTreeMap::get` on maps
whose key list is duplicate-free. -/
def alookup {α : Type} (l : List (Nat × α)) (k : Nat) : Option α :=
  (l.find? (fun p => p.1 == k)).map (fun p => p.2)

/-- Replace the value of the first entry with key `k`, modelling in-place
mutation through `BTreeMap::get_mut`. -/
def aset {α : Type} (l : List (Nat × α)) (k : Nat) (v : α) : List (Nat × α) :=
  match l with
  | [] => []
  | p :: rest => if p.1 = k then (k, v) :: rest else p :: aset rest k v

/-- `Image` from `image.rs`: the aggregate snapshot plus role pointers. -/
structure Image where
  memories : List (MemoryId × MemImage)
  globals : List (GlobalId × WasmVal)
  tables : List (TableId × List FuncId)
  stack_pointer : Option GlobalId
  main_heap : Option MemoryId
  main_table : Option TableId
  deriving DecidableEq, Repr

/-- `u32::to_le_bytes` / `value.to_le_bytes()` in `write_u32`. -/
def u32ToLeBytes (v : Nat) : List Nat :=
  [v % 256, v / 2 ^ 8 % 256, v / 2 ^ 16 % 256, v / 2 ^ 24 % 256]

/-- Little-endian byte composition, the shape of `uN::from_le_bytes`. -/
def fromLeBytes (bs : List Nat) : Nat :=
  match bs with
  | [] => 0
  | b :: rest => b + 256 * fromLeBytes rest

/-- A byte in the inclusive range `[lo, hi]`. -/
def byteIn (lo hi b : Nat) : Bool := decide (lo ≤ b) && decide (b ≤ hi)

/-- A UTF-8 continuation byte (`0b10xx_xxxx`). -/
def isCont (b : Nat) : Bool := byteIn 0x80 0xBF b

/-- UTF-8 validity of a byte sequence, the check performed by
`std::str::from_utf8` in `read_str`: well-formed continuation bytes, no
overlong encodings, no surrogates, maximum scalar `U+10FFFF`. -/
def utf8Valid : List Nat → Bool
  | [] => true
  | b :: rest =>
    if b ≤ 0x7F then utf8Valid rest
    else if byteIn 0xC2 0xDF b then
      match rest with
      | c1 :: r => isCont c1 && utf8Valid r
      | [] => false
    else if byteIn 0xE0 0xEF b then
      match rest with
      | c1 :: c2 :: r =>
        (if b = 0xE0 then byteIn 0xA0 0xBF c1
          else if b = 0xED then byteIn 0x80 0x9F c1
          else isCont c1) && isCont c2 && utf8Valid r
      | _ => false
    else if byteIn 0xF0 0xF4 b then
      match rest with
      | c1 :: c2 :: c3 :: r =>
        (if b = 0xF0 then byteIn 0x90 0xBF c1
          else if b = 0xF4 then byteIn 0x80 0x8F c1
          else isCont c1) && isCont c2 && isCont c3 && utf8Valid r
      | _ => false
    else false

namespace MemImage

/-- `Image::read_u8` body on the looked-up `MemImage`:
`image.get(addr as usize)` — bounds against the buffer itself. -/
def read_u8 (m : MemImage) (addr : Nat) : Except Err Nat :=
  match m.image.get? addr with
  | some b => .ok b
  | none => .error .oob

/-- `Image::read_u16` body: fails iff `addr + 2 > len`, else reads two bytes
little-endian.  (The Rust slice `image[addr..addr+2]` panics only when
`image.length < addr + 2`, impossible while `image.length = len`.) -/
def read_u16 (m : MemImage) (addr : Nat) : Except Err Nat :=
  if addr + 2 > m.len then .error .oob
  else .ok (fromLeBytes ((m.image.drop addr).take 2))

/-- `Image::read_u32` body: fails iff `addr + 4 > len`, else reads four bytes
little-endian. -/
def read_u32 (m : MemImage) (addr : Nat) : Except Err Nat :=
  if addr + 4 > m.len then .error .oob
  else .ok (fromLeBytes ((m.image.drop addr).take 4))

/-- `Image::read_u64` body: low `u32` at `addr`, high `u32` at `addr + 4`,
composed as `high << 32 | low`. -/
def read_u64 (m : MemImage) (addr : Nat) : Except Err Nat := do
  let low ← m.read_u32 addr
  let high ← m.read_u32 (addr + 4)
  return high <<< 32 ||| low

/-- `Image::read_u128` body: low `u64` at `addr`, high `u64` at `addr + 8`,
composed as `high << 64 | low`. -/
def read_u128 (m : MemImage) (addr : Nat) : Except Err Nat := do
  let low ← m.read_u64 addr
  let high ← m.read_u64 (addr + 8)
  return high <<< 64 ||| low

/-- `Image::read_size` body: dispatch on the width; `panic!("bad size")` for
any width outside `{1,2,4,8}` is the outer `none`.  `u64::from` zero-extends,
the identity on `Nat` values. -/
def read_size (m : MemImage) (addr : Nat) (size : Nat) : Option (Except Err Nat) :=
  match size with
  | 1 => some (m.read_u8 addr)
  | 2 => some (m.read_u16 addr)
  | 4 => some (m.read_u32 addr)
  | 8 => some (m.read_u64 addr)
  | _ => none

/-- The byte-accumulation loop of `Image::read_str`: read bytes one at a time
from `addr`, stopping before the first zero byte, propagating the
out-of-bounds error of `read_u8`. -/
def read_str_go (m : MemImage) (addr : Nat) : Except Err (List Nat) :=
  match h : m.read_u8 addr with
  | .error e => .error e
  | .ok b =>
    if b = 0 then .ok []
    else
      match read_str_go m (addr + 1) with
      | .error e => .error e
      | .ok rest => .ok (b :: rest)
termination_by m.image.length - addr
decreasing_by
  have haddr : addr < m.image.length := by
    by_contra hge
    have hnone : m.image[addr]? = none := List.getElem?_eq_none (Nat.le_of_not_lt hge)
    simp [read_u8, hnone] at h
  omega

/-- `Image::read_str` body: accumulate bytes up to (excluding) the first zero
byte, then validate as UTF-8 (`std::str::from_utf8`).  The result is the byte
sequence of the returned `String` (Rust's `from_utf8` validates and returns
the same bytes). -/
def read_str (m : MemImage) (addr : Nat) : Except Err (List Nat) :=
  match m.read_str_go addr with
  | .error e => .error e
  | .ok bytes => if utf8Valid bytes then .ok bytes else .error .utf8

/-- `Image::write_u8` body: `image.get_mut(addr)` — bounds against the buffer
itself; on failure the buffer is untouched. -/
def write_u8 (m : MemImage) (addr : Nat) (v : Nat) : MemImage × Option Err :=
  if addr < m.image.length then ({ m with image := m.image.set addr v }, none)
  else (m, some .oob)

/-- `Image::write_u32` body: fails iff `addr + 4 > len` (before touching any
byte), else overwrites four bytes with the little-endian encoding. -/
def write_u32 (m : MemImage) (addr : Nat) (v : Nat) : MemImage × Option Err :=
  if addr + 4 > m.len then (m, some .oob)
  else
    ({ m with
        image := m.image.take addr ++ u32ToLeBytes v ++ m.image.drop (addr + 4) },
      none)

end MemImage

namespace Image

/-- `Image::can_read`: overflow-checked `addr + size` (both `u32`, so
`checked_add` fails iff the sum reaches `2^32`), then map lookup, then
comparison against the logical length.  Total, never fails. -/
def can_read (im : Image) (memory : MemoryId) (addr size : Nat) : Bool :=
  if addr + size ≥ 2 ^ 32 then false
  else
    match alookup im.memories memory with
    | some image => decide (addr + size ≤ image.len)
    | none => false

/-- `Image::read_u8`: `self.memories.get(&id).unwrap()` — the unwrap on an
absent id is a panic, the outer `none`. -/
def read_u8 (im : Image) (id : MemoryId) (addr : Nat) : Option (Except Err Nat) :=
  (alookup im.memories id).map (fun m => m.read_u8 addr)

/-- `Image::read_u16`, with the same unwrap-panic modelling. -/
def read_u16 (im : Image) (id : MemoryId) (addr : Nat) : Option (Except Err Nat) :=
  (alookup im.memories id).map (fun m => m.read_u16 addr)

/-- `Image::read_u32`, with the same unwrap-panic modelling. -/
def read_u32 (im : Image) (id : MemoryId) (addr : Nat) : Option (Except Err Nat) :=
  (alookup im.memories id).map (fun m => m.read_u32 addr)

/-- `Image::read_u64`: two `read_u32` calls (each looking the memory up
again, as the source does), composed as `high << 32 | low`. -/
def read_u64 (im : Image) (id : MemoryId) (addr : Nat) : Option (Except Err Nat) :=
  match im.read_u32 id addr with
  | none => none
  | some (.error e) => some (.error e)
  | some (.ok low) =>
    match im.read_u32 id (addr + 4) with
    | none => none
    | some (.error e) => some (.error e)
    | some (.ok high) => some (.ok (high <<< 32 ||| low))

/-- `Image::read_u128`: two `read_u64` calls, composed as `high << 64 | low`. -/
def read_u128 (im : Image) (id : MemoryId) (addr : Nat) : Option (Except Err Nat) :=
  match im.read_u64 id addr with
  | none => none
  | some (.error e) => some (.error e)
  | some (.ok low) =>
    match im.read_u64 id (addr + 8) with
    | none => none
    | some (.error e) => some (.error e)
    | some (.ok high) => some (.ok (high <<< 64 ||| low))

/-- `Image::read_size`: width dispatch.  The outer `none` covers both panic
sources: an absent memory id (unwrap inside the fixed-width reader) and the
`panic!("bad size")` arm. -/
def read_size (im : Image) (id : MemoryId) (addr size : Nat) : Option (Except Err Nat) :=
  match alookup im.memories id with
  | none => none
  | some m => m.read_size addr size

/-- `Image::read_str`: the byte-walk loop calls `self.read_u8(id, addr)` each
iteration; with `id` present every lookup yields the same memory, so the loop
is the `MemImage.read_str` walk on it. -/
def read_str (im : Image) (id : MemoryId) (addr : Nat) : Option (Except Err (List Nat)) :=
  (alookup im.memories id).map (fun m => m.read_str addr)

/-- `Image::write_u8`: unwrap-panic on an absent id, otherwise in-place
mutation of the looked-up memory; the error outcome leaves it untouched. -/
def write_u8 (im : Image) (id : MemoryId) (addr v : Nat) :
    Option (Image × Option Err) :=
  (alookup im.memories id).map (fun m =>
    let r := m.write_u8 addr v
    ({ im with memories := aset im.memories id r.1 }, r.2))

/-- `Image::write_u32`: unwrap-panic on an absent id; bounds checked in full
before any byte is written. -/
def write_u32 (im : Image) (id : MemoryId) (addr v : Nat) :
    Option (Image × Option Err) :=
  (alookup im.memories id).map (fun m =>
    let r := m.write_u32 addr v
    ({ im with memories := aset im.memories id r.1 }, r.2))

end Image

/-- `copy_from_slice` of one segment into the buffer:
`image[offset .. offset + data.len()] = data`.  The Rust slice indexing
panics when the segment end exceeds the buffer length; that panic is the
`none` here. -/
def copy_segment (image : List Nat) (seg : MemorySegment) : Option (List Nat) :=
  if seg.offset + seg.data.length ≤ image.length then
    some (image.take seg.offset ++ seg.data ++ image.drop (seg.offset + seg.data.length))
  else none

/-- `maybe_mem_image`: zero-fill `initial_pages * 65536` bytes, then copy each
segment in order.  The source always returns `Some`; its only non-`Some`
outcome is the slice-indexing panic, modelled as `none`. -/
def maybe_mem_image (mem : MemoryData) : Option MemImage :=
  let len := mem.initial_pages * 65536
  (mem.segments.foldlM copy_segment (List.replicate len 0)).map
    (fun image => { image := image, len := len })

/-- `build_image`: one `MemImage` per memory (a segment-copy panic in
`maybe_mem_image` aborts the build, hence the `Option`), globals with a known
decodable initializer, tables' function elements (`unwrap_or(vec![])`), and
first-of-kind role pointers (`iter().next()` on a waffle entity table yields
id `0` when the table is non-empty). -/
def build_image (m : WModule) : Option Image :=
  (m.memories.enum.mapM (fun p => (maybe_mem_image p.2).map (fun img => (p.1, img)))).map
    (fun mems =>
      { memories := mems
        globals := m.globals.enum.filterMap (fun p =>
            match p.2.value with
            | some bits => (WasmVal.from_bits p.2.ty bits).map (fun v => (p.1, v))
            | none => none)
        tables := m.tables.enum.map (fun p => (p.1, p.2.func_elements.getD []))
        stack_pointer := if m.globals.length = 0 then none else some 0
        main_heap := if m.memories.length = 0 then none else some 0
        main_table := if m.tables.length = 0 then none else some 0 })

/-- One iteration of `update`'s loop: clear memory `p.1`'s segments in the
module and push the single segment `{ offset: 0, data: p.2.image }`.
`module.memories[mem_id]` on an id outside the module is a panic (`none`). -/
def update_step (mod : WModule) (p : MemoryId × MemImage) : Option WModule :=
  match mod.memories.get? p.1 with
  | none => none
  | some md =>
    some { mod with
      memories := mod.memories.set p.1
        { md with segments := [{ offset := 0, data := p.2.image }] } }

/-- `update`: for every memory of the image, replace that memory's segments
in the module with the single full-buffer segment. -/
def update (m : WModule) (im : Image) : Option WModule :=
  im.memories.foldlM update_step m

/-- `sig_matches`: look up the function's signature and compare parameter and
return type sequences element-wise.  The Rust index expressions
`module.funcs[f]` / `module.signatures[sig]` panic on out-of-range ids; here
an out-of-range id yields `false` (no claim probes that difference, and every
module in the theorems below carries valid ids). -/
def sig_matches (m : WModule) (f : FuncId) (in_tys out_tys : List Ty) : Bool :=
  match m.funcs.get? f with
  | none => false
  | some fd =>
    match m.signatures.get? fd.sig with
    | none => false
    | some sig => sig.params = in_tys && sig.returns = out_tys

/-- `find_imported_intrinsic`: first import whose `(module, name)` equals
`("weval", name)`, accepted only when it is a function import whose signature
matches exactly. -/
def find_imported_intrinsic (m : WModule) (name : String) (in_tys out_tys : List Ty) :
    Option FuncId :=
  (m.imports.find? (fun im => im.module == "weval" && im.name == name)).bind
    (fun im =>
      match im.kind with
      | .func f => if sig_matches m f in_tys out_tys then some f else none
      | _ => none)

/-- `find_exported_func`: first export with the given name, accepted only
when it is a function export whose signature matches exactly. -/
def find_exported_func (m : WModule) (name : String) (in_tys out_tys : List Ty) :
    Option FuncId :=
  (m.exports.find? (fun ex => ex.name == name)).bind
    (fun ex =>
      match ex.kind with
      | .func f => if sig_matches m f in_tys out_tys then some f else none
      | _ => none)

/-- The body-shape analysis of `find_global_data_by_exported_func` after the
export lookup: inspect the entry block's terminator.  Outer `none` = panic
(failed `assert_eq!`, or indexing `blocks`/`values`/`params` out of range);
`some none` = "no constant found"; `some (some v)` = extracted literal. -/
def find_global_data (body : FunctionBody) : Option (Option Nat) :=
  match body.blocks.get? body.entry with
  | none => none
  | some entryBlock =>
    match entryBlock.terminator with
    | .ret values =>
      -- assert_eq!(values.len(), 1)
      match values with
      | [v] =>
        match body.values.get? v with
        | some (.operator (.i32const value)) => some (some value)
        | some _ => some none
        | none => none
      | _ => none
    | .br target =>
      -- assert_eq!(target.args.len(), 1)
      match target.args with
      | [a] =>
        match body.values.get? a with
        | some (.operator (.i32const value)) =>
          match body.blocks.get? target.block with
          | none => none
          | some tb =>
            match tb.terminator with
            | .ret values2 =>
              -- guard: values.len() == 1 && values[0] == params[0].1
              match values2 with
              | [v2] =>
                match tb.params.get? 0 with
                | none => none
                | some p => if v2 = p.2 then some (some value) else some none
              | _ => some none
            | _ => some none
        | some _ => some none
        | none => none
      | _ => none
    | _ => some none

/-- `find_global_data_by_exported_func`: look the export up with signature
`[] -> [i32]` (absence is the `?`, yielding "no constant"), take its parsed
body (`body()?` is `None` for imported functions), then analyse the shape.
`module.funcs[f]` panics on an out-of-range id (outer `none`);
`body.parse(module).unwrap()` is waffle-external and bodies are modelled as
already parsed. -/
def find_global_data_by_exported_func (m : WModule) (name : String) :
    Option (Option Nat) :=
  match find_exported_func m name [] [.i32] with
  | none => some none
  | some f =>
    match m.funcs.get? f with
    | none => none
    | some fd =>
      match fd.body with
      | none => some none
      | some body => find_global_data body

/-! ## Helper lemmas -/

theorem Image.read_u8_eq (im : Image) (id : MemoryId) (mi : MemImage)
    (hid : alookup im.memories id = some mi) (addr : Nat) :
    im.read_u8 id addr = some (mi.read_u8 addr) := by
  simp [Image.read_u8, hid]

theorem Image.read_u16_eq (im : Image) (id : MemoryId) (mi : MemImage)
    (hid : alookup im.memories id = some mi) (addr : Nat) :
    im.read_u16 id addr = some (mi.read_u16 addr) := by
  simp [Image.read_u16, hid]

theorem Image.read_u32_eq (im : Image) (id : MemoryId) (mi : MemImage)
    (hid : alookup im.memories id = some mi) (addr : Nat) :
    im.read_u32 id addr = some (mi.read_u32 addr) := by
  simp [Image.read_u32, hid]

theorem Image.read_u64_eq (im : Image) (id : MemoryId) (mi : MemImage)
    (hid : alookup im.memories id = some mi) (addr : Nat) :
    im.read_u64 id addr = some (mi.read_u64 addr) := by
  simp only [Image.read_u64, Image.read_u32_eq im id mi hid]
  unfold MemImage.read_u64
  cases mi.read_u32 addr with
  | error e => rfl
  | ok low =>
    cases mi.read_u32 (addr + 4) with
    | error e => rfl
    | ok high => rfl

theorem Image.read_u128_eq (im : Image) (id : MemoryId) (mi : MemImage)
    (hid : alookup im.memories id = some mi) (addr : Nat) :
    im.read_u128 id addr = some (mi.read_u128 addr) := by
  simp only [Image.read_u128, Image.read_u64_eq im id mi hid]
  unfold MemImage.read_u128
  cases mi.read_u64 addr with
  | error e => rfl
  | ok low =>
    cases mi.read_u64 (addr + 8) with
    | error e => rfl
    | ok high => rfl

theorem alookup_cons {α : Type} (p : Nat × α) (rest : List (Nat × α)) (k : Nat) :
    alookup (p :: rest) k = if p.1 = k then some p.2 else alookup rest k := by
  by_cases h : p.1 = k
  · simp [alookup, List.find?_cons_of_pos, h]
  · simp [alookup, List.find?_cons_of_neg, h]

theorem alookup_aset_self {α : Type} (l : List (Nat × α)) (k : Nat) (v v0 : α)
    (h : alookup l k = some v0) : alookup (aset l k v) k = some v := by
  induction l with
  | nil => simp [alookup] at h
  | cons p rest ih =>
    rw [alookup_cons] at h
    by_cases hp : p.1 = k
    · simp [aset, hp, alookup_cons]
    · rw [if_neg hp] at h
      simp only [aset, if_neg hp]
      rw [alookup_cons, if_neg hp]
      exact ih h

theorem aset_self {α : Type} (l : List (Nat × α)) (k : Nat) (v : α)
    (h : alookup l k = some v) : aset l k v = l := by
  induction l with
  | nil => simp [alookup] at h
  | cons p rest ih =>
    rw [alookup_cons] at h
    by_cases hp : p.1 = k
    · rw [if_pos hp] at h
      cases h
      rw [aset, if_pos hp, ← hp]
    · rw [if_neg hp] at h
      simp [aset, hp, ih h]

theorem fromLeBytes_u32ToLeBytes (v : Nat) (hv : v < 2 ^ 32) :
    fromLeBytes (u32ToLeBytes v) = v := by
  simp only [u32ToLeBytes, fromLeBytes]
  omega

/-! ## C4: `can_read` characterization -/

/-- C4: `can_read(m, addr, s)` is true iff `m` is a key of the memories
mapping, `addr + s` does not overflow 32-bit unsigned arithmetic, and
`addr + s` is at most the memory's logical length; it is total (never fails)
and returns false on any invalid input, including an unknown memory id. -/
theorem can_read_iff (im : Image) (memory : MemoryId) (addr size : Nat)
    (haddr : addr < 2 ^ 32) (hsize : size < 2 ^ 32) :
    im.can_read memory addr size = true ↔
      ∃ mi, alookup im.memories memory = some mi ∧
        addr + size < 2 ^ 32 ∧ addr + size ≤ mi.len := by
  unfold Image.can_read
  by_cases hov : addr + size ≥ 2 ^ 32
  · simp only [if_pos hov]
    constructor
    · intro h; exact absurd h (by simp)
    · rintro ⟨mi, _, hlt, _⟩; omega
  · simp only [if_neg hov]
    cases hl : alookup im.memories memory with
    | none =>
      constructor
      · intro h; exact absurd h (by simp)
      · rintro ⟨mi, hmi, _, _⟩; exact absurd hmi (by simp)
    | some mi =>
      simp only [decide_eq_true_eq]
      constructor
      · intro h; exact ⟨mi, rfl, by omega, h⟩
      · rintro ⟨mi2, hmi2, _, hle⟩
        cases hmi2
        exact hle

def exImageC4 : Image :=
  { memories := [(0, { image := List.replicate 8 0, len := 8 })]
    globals := []
    tables := []
    stack_pointer := none
    main_heap := some 0
    main_table := none }

theorem can_read_iff_witness :
    (exImageC4.can_read 0 4 4 = true ↔
      ∃ mi, alookup exImageC4.memories 0 = some mi ∧
        4 + 4 < 2 ^ 32 ∧ 4 + 4 ≤ mi.len) :=
  can_read_iff exImageC4 0 4 4 (by decide) (by decide)

/-! ## C3: write/read round-trips and little-endian composition -/

/-- C3: for a memory id present in the Image (with the construction invariant
`image.length = len`): `write_u8` then `read_u8` at the same address returns
the written value; `write_u32` then `read_u32` at the same address returns
the written value; `read_u64(a)` is `read_u32(a) ||| (read_u32(a+4) <<< 32)`
whenever both halves are in bounds; and `read_u128(a)` is the analogous
little-endian composition of the two `read_u64` halves (low at `a`, high at
`a + 8`). -/
theorem mem_roundtrip_and_composition (im : Image) (id : MemoryId) (mi : MemImage)
    (hlook : alookup im.memories id = some mi)
    (hinv : mi.image.length = mi.len) :
    (∀ addr v, addr < mi.len → v < 2 ^ 8 →
      ∃ im', im.write_u8 id addr v = some (im', none) ∧
        im'.read_u8 id addr = some (.ok v)) ∧
    (∀ addr v, addr + 4 ≤ mi.len → v < 2 ^ 32 →
      ∃ im', im.write_u32 id addr v = some (im', none) ∧
        im'.read_u32 id addr = some (.ok v)) ∧
    (∀ addr low high, im.read_u32 id addr = some (.ok low) →
      im.read_u32 id (addr + 4) = some (.ok high) →
      im.read_u64 id addr = some (.ok (low ||| (high <<< 32)))) ∧
    (∀ addr low high, im.read_u64 id addr = some (.ok low) →
      im.read_u64 id (addr + 8) = some (.ok high) →
      im.read_u128 id addr = some (.ok (low ||| (high <<< 64)))) := by
  refine ⟨?_, ?_, ?_, ?_⟩
  · intro addr v haddr hv
    have hlen : addr < mi.image.length := by omega
    refine ⟨{ im with
      memories := aset im.memories id { mi with image := mi.image.set addr v } },
      ?_, ?_⟩
    · simp [Image.write_u8, hlook, MemImage.write_u8, hlen]
    · simp only [Image.read_u8,
        alookup_aset_self im.memories id _ mi hlook, Option.map_some']
      simp [MemImage.read_u8, List.getElem?_set_eq_of_lt v hlen]
  · intro addr v haddr hv
    have h4 : addr + 4 ≤ mi.image.length := by omega
    have hnb : ¬ (addr + 4 > mi.len) := by omega
    refine ⟨{ im with
      memories := aset im.memories id
        { mi with
          image := mi.image.take addr ++ u32ToLeBytes v ++ mi.image.drop (addr + 4) } },
      ?_, ?_⟩
    · simp [Image.write_u32, hlook, MemImage.write_u32, hnb]
    · simp only [Image.read_u32,
        alookup_aset_self im.memories id _ mi hlook, Option.map_some']
      have htake : (mi.image.take addr).length = addr := by
        rw [List.length_take]; omega
      have hdrop :
          (mi.image.take addr ++ u32ToLeBytes v ++ mi.image.drop (addr + 4)).drop addr
            = u32ToLeBytes v ++ mi.image.drop (addr + 4) := by
        rw [List.append_assoc, List.drop_left' htake]
      have hlen4 : (u32ToLeBytes v).length = 4 := by simp [u32ToLeBytes]
      simp only [MemImage.read_u32, if_neg hnb, hdrop, List.take_left' hlen4,
        fromLeBytes_u32ToLeBytes v hv]
  · intro addr low high h1 h2
    rw [Image.read_u32_eq im id mi hlook] at h1 h2
    have e1 : mi.read_u32 addr = .ok low := Option.some.inj h1
    have e2 : mi.read_u32 (addr + 4) = .ok high := Option.some.inj h2
    rw [Image.read_u64_eq im id mi hlook]
    simp [MemImage.read_u64, e1, e2, Nat.lor_comm, Bind.bind, Except.bind, Pure.pure, Except.pure]
  · intro addr low high h1 h2
    rw [Image.read_u64_eq im id mi hlook] at h1 h2
    have e1 : mi.read_u64 addr = .ok low := Option.some.inj h1
    have e2 : mi.read_u64 (addr + 8) = .ok high := Option.some.inj h2
    rw [Image.read_u128_eq im id mi hlook]
    simp [MemImage.read_u128, e1, e2, Nat.lor_comm, Bind.bind, Except.bind, Pure.pure, Except.pure]

def exImageC3 : Image :=
  { memories := [(0, { image := List.replicate 16 0, len := 16 })]
    globals := []
    tables := []
    stack_pointer := none
    main_heap := some 0
    main_table := none }

theorem mem_roundtrip_and_composition_witness :
    (∀ addr v, addr < 16 → v < 2 ^ 8 →
      ∃ im', exImageC3.write_u8 0 addr v = some (im', none) ∧
        im'.read_u8 0 addr = some (.ok v)) ∧
    (∀ addr v, addr + 4 ≤ 16 → v < 2 ^ 32 →
      ∃ im', exImageC3.write_u32 0 addr v = some (im', none) ∧
        im'.read_u32 0 addr = some (.ok v)) ∧
    (∀ addr low high, exImageC3.read_u32 0 addr = some (.ok low) →
      exImageC3.read_u32 0 (addr + 4) = some (.ok high) →
      exImageC3.read_u64 0 addr = some (.ok (low ||| (high <<< 32)))) ∧
    (∀ addr low high, exImageC3.read_u64 0 addr = some (.ok low) →
      exImageC3.read_u64 0 (addr + 8) = some (.ok high) →
      exImageC3.read_u128 0 addr = some (.ok (low ||| (high <<< 64)))) :=
  mem_roundtrip_and_composition exImageC3 0
    { image := List.replicate 16 0, len := 16 }
    (by simp [exImageC3, alookup]) (by simp)

/-! ## C9: `read_size` dispatch -/

/-- C9: for a memory id present in the Image, `read_size` with width 1, 2, 4
or 8 returns exactly the corresponding fixed-width reader's result
(zero-extension to 64 bits is the identity on the modelled values), so under
the precondition `width ∈ {1,2,4,8}` the fatal branch is unreachable; any
other width is a fatal contract violation (panic, the outer `none`), not a
value or recoverable error. -/
theorem read_size_dispatch (im : Image) (id : MemoryId) (mi : MemImage)
    (hid : alookup im.memories id = some mi) (addr : Nat) :
    im.read_size id addr 1 = im.read_u8 id addr ∧
    im.read_size id addr 2 = im.read_u16 id addr ∧
    im.read_size id addr 4 = im.read_u32 id addr ∧
    im.read_size id addr 8 = im.read_u64 id addr ∧
    (∀ size, size ≠ 1 → size ≠ 2 → size ≠ 4 → size ≠ 8 →
      im.read_size id addr size = none) := by
  refine ⟨?_, ?_, ?_, ?_, ?_⟩
  · rw [Image.read_u8_eq im id mi hid]
    simp [Image.read_size, hid, MemImage.read_size]
  · rw [Image.read_u16_eq im id mi hid]
    simp [Image.read_size, hid, MemImage.read_size]
  · rw [Image.read_u32_eq im id mi hid]
    simp [Image.read_size, hid, MemImage.read_size]
  · rw [Image.read_u64_eq im id mi hid]
    simp [Image.read_size, hid, MemImage.read_size]
  · intro size h1 h2 h4 h8
    simp only [Image.read_size, hid]
    unfold MemImage.read_size
    split <;> simp_all

def exImageC9 : Image :=
  { memories := [(0, { image := List.replicate 8 0, len := 8 })]
    globals := []
    tables := []
    stack_pointer := none
    main_heap := some 0
    main_table := none }

theorem read_size_dispatch_witness :
    exImageC9.read_size 0 0 1 = exImageC9.read_u8 0 0 ∧
    exImageC9.read_size 0 0 2 = exImageC9.read_u16 0 0 ∧
    exImageC9.read_size 0 0 4 = exImageC9.read_u32 0 0 ∧
    exImageC9.read_size 0 0 8 = exImageC9.read_u64 0 0 ∧
    (∀ size, size ≠ 1 → size ≠ 2 → size ≠ 4 → size ≠ 8 →
      exImageC9.read_size 0 0 size = none) :=
  read_size_dispatch exImageC9 0
    { image := List.replicate 8 0, len := 8 } (by simp [exImageC9, alookup]) 0

/-! ## C10: failed writes have no partial effect -/

/-- C10: for a memory id present in the Image, when `write_u8` or `write_u32`
fails with an out-of-bounds error, the resulting Image is the unchanged
input — in particular every byte of every memory buffer is unchanged.  The
bounds check runs in full before any byte is mutated. -/
theorem write_fail_no_mutation (im : Image) (id : MemoryId) (mi : MemImage)
    (hlook : alookup im.memories id = some mi) :
    (∀ addr v im' e, im.write_u8 id addr v = some (im', some e) → im' = im) ∧
    (∀ addr v im' e, im.write_u32 id addr v = some (im', some e) → im' = im) := by
  constructor
  · intro addr v im' e h
    simp only [Image.write_u8, hlook, Option.map_some'] at h
    unfold MemImage.write_u8 at h
    by_cases haddr : addr < mi.image.length
    · rw [if_pos haddr] at h
      simp at h
    · rw [if_neg haddr] at h
      simp only at h
      have him : im' = { im with memories := aset im.memories id mi } :=
        (Prod.mk.injEq _ _ _ _ ▸ (Option.some.inj h).symm).1
      rw [him, aset_self im.memories id mi hlook]
  · intro addr v im' e h
    simp only [Image.write_u32, hlook, Option.map_some'] at h
    unfold MemImage.write_u32 at h
    by_cases haddr : addr + 4 > mi.len
    · rw [if_pos haddr] at h
      simp only at h
      have him : im' = { im with memories := aset im.memories id mi } :=
        (Prod.mk.injEq _ _ _ _ ▸ (Option.some.inj h).symm).1
      rw [him, aset_self im.memories id mi hlook]
    · rw [if_neg haddr] at h
      simp at h

def exImageC10 : Image :=
  { memories := [(0, { image := [], len := 0 })]
    globals := []
    tables := []
    stack_pointer := none
    main_heap := some 0
    main_table := none }

theorem write_fail_no_mutation_witness :
    (∀ addr v im' e, exImageC10.write_u8 0 addr v = some (im', some e) →
      im' = exImageC10) ∧
    (∀ addr v im' e, exImageC10.write_u32 0 addr v = some (im', some e) →
      im' = exImageC10) :=
  write_fail_no_mutation exImageC10 0 { image := [], len := 0 }
    (by simp [exImageC10, alookup])

/-! ## C1: role pointers and mapping keys -/

/-- A module whose only global has no constant initializer: `build_image`
still designates it as the stack pointer, but omits it from the globals
mapping. -/
def cexModuleC1 : WModule :=
  { memories := []
    globals := [{ ty := .i32, value := none }]
    tables := []
    funcs := []
    signatures := []
    imports := []
    exports := [] }

/-- C1 counterexample: on `cexModuleC1`, the built image has
`stack_pointer = some 0`, yet global `0` is not a key of the globals
mapping — the claimed invariant fails for the `stack_pointer` role pointer. -/
theorem build_image_stack_pointer_cex :
    (build_image cexModuleC1).map
        (fun im => (im.stack_pointer, alookup im.globals 0))
      = some (some 0, none) := by
  decide

/-- C1 amended: role pointers `main_heap` and `main_table`, when present,
always reference keys of the corresponding mapping; `stack_pointer`
references a key of the globals mapping only under the extra condition that
the first global has a known constant initializer whose bits decode to a
typed value (otherwise it may name a global absent from the mapping). -/
theorem build_image_role_pointers (m : WModule) (im : Image)
    (h : build_image m = some im) :
    (∀ mid, im.main_heap = some mid → (alookup im.memories mid).isSome) ∧
    (∀ tid, im.main_table = some tid → (alookup im.tables tid).isSome) ∧
    (∀ gid, im.stack_pointer = some gid →
      ∀ g bits w, m.globals.get? 0 = some g → g.value = some bits →
        WasmVal.from_bits g.ty bits = some w →
        (alookup im.globals gid).isSome) := by
  simp only [build_image, Option.map_eq_some'] at h
  obtain ⟨mems, hmems, him⟩ := h
  refine ⟨?_, ?_, ?_⟩
  · intro mid hmid
    rw [← him] at hmid
    simp only at hmid
    cases hmem : m.memories with
    | nil => rw [hmem] at hmid; simp at hmid
    | cons md rest =>
      have hne : m.memories.length ≠ 0 := by rw [hmem]; simp
      rw [if_neg hne] at hmid
      cases hmid
      rw [hmem, List.enum_cons, List.mapM_cons] at hmems
      simp only [Option.bind_eq_bind, Option.bind_eq_some', Option.map_eq_some'] at hmems
      obtain ⟨q, hq, qs, hqs, hcons⟩ := hmems
      obtain ⟨img0, himg0, hq0⟩ := hq
      rw [← him]
      have hmemseq : mems = q :: qs := by simpa using hcons.symm
      simp only [hmemseq, ← hq0]
      simp [alookup_cons]
  · intro tid htid
    rw [← him] at htid
    simp only at htid
    cases htab : m.tables with
    | nil => rw [htab] at htid; simp at htid
    | cons td rest =>
      have hne : m.tables.length ≠ 0 := by rw [htab]; simp
      rw [if_neg hne] at htid
      cases htid
      rw [← him]
      simp only [htab, List.enum_cons, List.map_cons]
      simp [alookup_cons]
  · intro gid hgid g bits w hg hbits hw
    rw [← him] at hgid
    simp only at hgid
    cases hglob : m.globals with
    | nil => rw [hglob] at hgid; simp at hgid
    | cons g0 rest =>
      have hne : m.globals.length ≠ 0 := by rw [hglob]; simp
      rw [if_neg hne] at hgid
      cases hgid
      have hg0 : g0 = g := by
        rw [hglob] at hg
        simpa using hg
      rw [← him]
      simp only [hglob, List.enum_cons]
      rw [List.filterMap_cons_some (b := (0, w))]
      · simp [alookup_cons]
      · simp only [hg0, hbits, hw, Option.map_some']

def exModuleC1 : WModule :=
  { memories := [{ initial_pages := 0, segments := [] }]
    globals := [{ ty := .i32, value := some 7 }]
    tables := [{ func_elements := some [3] }]
    funcs := []
    signatures := []
    imports := []
    exports := [] }

def exImageC1 : Image :=
  { memories := [(0, { image := [], len := 0 })]
    globals := [(0, .i32 7)]
    tables := [(0, [3])]
    stack_pointer := some 0
    main_heap := some 0
    main_table := some 0 }

theorem build_image_role_pointers_witness :
    build_image exModuleC1 = some exImageC1 ∧
      ((∀ mid, exImageC1.main_heap = some mid →
          (alookup exImageC1.memories mid).isSome) ∧
       (∀ tid, exImageC1.main_table = some tid →
          (alookup exImageC1.tables tid).isSome) ∧
       (∀ gid, exImageC1.stack_pointer = some gid →
         ∀ g bits w, exModuleC1.globals.get? 0 = some g → g.value = some bits →
           WasmVal.from_bits g.ty bits = some w →
           (alookup exImageC1.globals gid).isSome)) :=
  ⟨by decide, build_image_role_pointers exModuleC1 exImageC1 (by decide)⟩

/-! ## C7: intrinsic import matching -/

theorem sig_matches_true_iff (m : WModule) (f : FuncId) (in_tys out_tys : List Ty) :
    sig_matches m f in_tys out_tys = true ↔
      ∃ fd sig, m.funcs.get? f = some fd ∧ m.signatures.get? fd.sig = some sig ∧
        sig.params = in_tys ∧ sig.returns = out_tys := by
  unfold sig_matches
  constructor
  · intro h
    split at h
    · exact absurd h (by simp)
    · next fd hfd =>
      split at h
      · exact absurd h (by simp)
      · next sig hsig =>
        simp only [Bool.and_eq_true, decide_eq_true_eq] at h
        exact ⟨fd, sig, hfd, hsig, h.1, h.2⟩
  · rintro ⟨fd, sig, h1, h2, hp, hr⟩
    rw [h1]
    simp only [h2]
    simp [hp, hr]

/-- C7: `find_imported_intrinsic` returns `some f` only for an import whose
declaring namespace is `"weval"`, whose name is the target, whose kind is a
function, and whose parameter and return type sequences match the expected
ones exactly; modules where no import has the `"weval"` namespace yield
`none` whatever the names and signatures; and when the first
`("weval", name)` import is not a function with exactly the expected
signature, the result is `none`. -/
theorem find_imported_intrinsic_spec (m : WModule) (name : String)
    (in_tys out_tys : List Ty) :
    (∀ f, find_imported_intrinsic m name in_tys out_tys = some f →
      ∃ im, im ∈ m.imports ∧ im.module = "weval" ∧ im.name = name ∧
        im.kind = .func f ∧
        ∃ fd sig, m.funcs.get? f = some fd ∧ m.signatures.get? fd.sig = some sig ∧
          sig.params = in_tys ∧ sig.returns = out_tys) ∧
    ((∀ im, im ∈ m.imports → im.module ≠ "weval") →
      find_imported_intrinsic m name in_tys out_tys = none) ∧
    (∀ im0, m.imports.find? (fun im => im.module == "weval" && im.name == name)
        = some im0 →
      (∀ f, im0.kind = .func f → sig_matches m f in_tys out_tys = false) →
      find_imported_intrinsic m name in_tys out_tys = none) := by
  refine ⟨?_, ?_, ?_⟩
  · intro f h
    unfold find_imported_intrinsic at h
    cases hfind : m.imports.find? (fun im => im.module == "weval" && im.name == name) with
    | none => rw [hfind] at h; simp at h
    | some im0 =>
      rw [hfind, Option.some_bind] at h
      have hmem : im0 ∈ m.imports := List.mem_of_find?_eq_some hfind
      have hpred := List.find?_some hfind
      simp only [Bool.and_eq_true, beq_iff_eq] at hpred
      cases hkind : im0.kind with
      | otherImport => rw [hkind] at h; simp at h
      | func f0 =>
        rw [hkind] at h
        change (if sig_matches m f0 in_tys out_tys = true then some f0 else none)
          = some f at h
        by_cases hsig : sig_matches m f0 in_tys out_tys = true
        · rw [if_pos hsig] at h
          have hf : f0 = f := Option.some.inj h
          rw [hf] at hkind hsig
          obtain ⟨fd, sig, h1, h2, hp, hr⟩ :=
            (sig_matches_true_iff m f in_tys out_tys).mp hsig
          exact ⟨im0, hmem, hpred.1, hpred.2, hkind, fd, sig, h1, h2, hp, hr⟩
        · rw [if_neg hsig] at h
          simp at h
  · intro hall
    unfold find_imported_intrinsic
    have hfind : m.imports.find? (fun im => im.module == "weval" && im.name == name)
        = none := by
      rw [List.find?_eq_none]
      intro im hm
      have := hall im hm
      simp [this]
    rw [hfind]
    rfl
  · intro im0 hfind hbad
    unfold find_imported_intrinsic
    rw [hfind, Option.some_bind]
    cases hkind : im0.kind with
    | otherImport => rfl
    | func f0 =>
      have := hbad f0 hkind
      simp [this]

def exModuleC7 : WModule :=
  { memories := []
    globals := []
    tables := []
    funcs := [{ sig := 0, body := none }]
    signatures := [{ params := [.i32], returns := [.i32] }]
    imports := [{ module := "weval", name := "assume.const.memory", kind := .func 0 }]
    exports := [] }

theorem find_imported_intrinsic_spec_witness :
    (∀ f, find_imported_intrinsic exModuleC7 "assume.const.memory" [.i32] [.i32]
        = some f →
      ∃ im, im ∈ exModuleC7.imports ∧ im.module = "weval" ∧
        im.name = "assume.const.memory" ∧ im.kind = .func f ∧
        ∃ fd sig, exModuleC7.funcs.get? f = some fd ∧
          exModuleC7.signatures.get? fd.sig = some sig ∧
          sig.params = [.i32] ∧ sig.returns = [.i32]) ∧
    ((∀ im, im ∈ exModuleC7.imports → im.module ≠ "weval") →
      find_imported_intrinsic exModuleC7 "assume.const.memory" [.i32] [.i32] = none) ∧
    (∀ im0, exModuleC7.imports.find?
        (fun im => im.module == "weval" && im.name == "assume.const.memory")
        = some im0 →
      (∀ f, im0.kind = .func f →
        sig_matches exModuleC7 f [.i32] [.i32] = false) →
      find_imported_intrinsic exModuleC7 "assume.const.memory" [.i32] [.i32] = none) :=
  find_imported_intrinsic_spec exModuleC7 "assume.const.memory" [.i32] [.i32]

/-! ## C2: constant-return extraction -/

/-- A module exporting `"get"` as a zero-parameter single-`i32`-return
function whose entry block ends in an unconditional branch carrying zero
arguments — a shape the claim says yields `None` without aborting, but on
which `assert_eq!(target.args.len(), 1)` panics. -/
def cexModuleC2 : WModule :=
  { memories := []
    globals := []
    tables := []
    funcs :=
      [{ sig := 0
         body := some
           { blocks :=
               [{ params := [], terminator := .br { block := 1, args := [] } },
                { params := [], terminator := .ret [0] }]
             entry := 0
             values := [.otherDef] } }]
    signatures := [{ params := [], returns := [.i32] }]
    imports := []
    exports := [{ name := "get", kind := .func 0 }] }

/-- C2 counterexample: on `cexModuleC2` the extractor hits the failed
assertion (modelled `none`, a panic/abort), not the claimed non-aborting
"no constant found" outcome (`some none`). -/
theorem find_global_data_br_args_cex :
    find_global_data_by_exported_func cexModuleC2 "get" = none ∧
      find_global_data_by_exported_func cexModuleC2 "get" ≠ some none := by
  decide

/-- C2 amended: for an exported zero-parameter single-`i32`-return function
with a parsed body, the extractor returns `some v` exactly for the two
recognized shapes (direct return of a literal; a one-argument literal branch
to a block returning its own first parameter); a return of a non-literal, a
branch with one non-literal argument, a literal branch whose target does not
return its first parameter, and any other terminator yield "no constant
found" without aborting; but a return whose value count is not one and a
branch whose argument count is not one are fatal assertion failures
(panics), not `None`. -/
theorem find_global_data_spec (m : WModule) (name : String) (f : FuncId)
    (fd : FuncDecl) (body : FunctionBody) (eb : Block)
    (hexp : find_exported_func m name [] [.i32] = some f)
    (hfd : m.funcs.get? f = some fd)
    (hbody : fd.body = some body)
    (heb : body.blocks.get? body.entry = some eb) :
    (∀ v value, eb.terminator = .ret [v] →
      body.values.get? v = some (.operator (.i32const value)) →
      find_global_data_by_exported_func m name = some (some value)) ∧
    (∀ v vd, eb.terminator = .ret [v] → body.values.get? v = some vd →
      (∀ value, vd ≠ .operator (.i32const value)) →
      find_global_data_by_exported_func m name = some none) ∧
    (∀ values, eb.terminator = .ret values → values.length ≠ 1 →
      find_global_data_by_exported_func m name = none) ∧
    (∀ target a value tb v2 p,
      eb.terminator = .br target → target.args = [a] →
      body.values.get? a = some (.operator (.i32const value)) →
      body.blocks.get? target.block = some tb →
      tb.terminator = .ret [v2] → tb.params.get? 0 = some p → v2 = p.2 →
      find_global_data_by_exported_func m name = some (some value)) ∧
    (∀ target a value tb v2 p,
      eb.terminator = .br target → target.args = [a] →
      body.values.get? a = some (.operator (.i32const value)) →
      body.blocks.get? target.block = some tb →
      tb.terminator = .ret [v2] → tb.params.get? 0 = some p → v2 ≠ p.2 →
      find_global_data_by_exported_func m name = some none) ∧
    (∀ target a vd, eb.terminator = .br target → target.args = [a] →
      body.values.get? a = some vd →
      (∀ value, vd ≠ .operator (.i32const value)) →
      find_global_data_by_exported_func m name = some none) ∧
    (∀ target, eb.terminator = .br target → target.args.length ≠ 1 →
      find_global_data_by_exported_func m name = none) ∧
    (eb.terminator = .otherTerm →
      find_global_data_by_exported_func m name = some none) := by
  have hred : find_global_data_by_exported_func m name = find_global_data body := by
    simp only [find_global_data_by_exported_func, hexp, hfd, hbody]
  refine ⟨?_, ?_, ?_, ?_, ?_, ?_, ?_, ?_⟩
  · intro v value hterm hval
    rw [hred]
    simp only [find_global_data, heb, hterm, hval]
  · intro v vd hterm hval hnl
    rw [hred]
    simp only [find_global_data, heb, hterm, hval]
  · intro values hterm hlen
    rw [hred]
    simp only [find_global_data, heb, hterm]
    cases values with
    | nil => rfl
    | cons a as =>
      cases as with
      | nil => simp at hlen
      | cons b bs => rfl
  · intro target a value tb v2 p hterm hargs hval htb hret hp hv2
    rw [hred]
    simp only [find_global_data, heb, hterm, hargs, hval, htb, hret, hp, if_pos hv2]
  · intro target a value tb v2 p hterm hargs hval htb hret hp hv2
    rw [hred]
    simp only [find_global_data, heb, hterm, hargs, hval, htb, hret, hp, if_neg hv2]
  · intro target a vd hterm hargs hval hnl
    rw [hred]
    simp only [find_global_data, heb, hterm, hargs, hval]
  · intro target hterm hlen
    rw [hred]
    simp only [find_global_data, heb, hterm]
    cases hargs : target.args with
    | nil => rfl
    | cons a as =>
      cases as with
      | nil => rw [hargs] at hlen; simp at hlen
      | cons b bs => rfl
  · intro hterm
    rw [hred]
    simp only [find_global_data, heb, hterm]

/-- A module exporting `"get"` whose body directly returns the literal 42. -/
def exModuleC2 : WModule :=
  { memories := []
    globals := []
    tables := []
    funcs :=
      [{ sig := 0
         body := some
           { blocks := [{ params := [], terminator := .ret [0] }]
             entry := 0
             values := [.operator (.i32const 42)] } }]
    signatures := [{ params := [], returns := [.i32] }]
    imports := []
    exports := [{ name := "get", kind := .func 0 }] }

theorem find_global_data_spec_witness :
    find_global_data_by_exported_func exModuleC2 "get" = some (some 42) :=
  (find_global_data_spec exModuleC2 "get" 0
      { sig := 0
        body := some
          { blocks := [{ params := [], terminator := .ret [0] }]
            entry := 0
            values := [.operator (.i32const 42)] } }
      { blocks := [{ params := [], terminator := .ret [0] }]
        entry := 0
        values := [.operator (.i32const 42)] }
      { params := [], terminator := .ret [0] }
      (by decide) (by decide) (by decide) (by decide)).1 0 42 rfl rfl

/-! ## C6: write-back replaces all segments with one -/

theorem update_step_ne (mod mod' : WModule) (p : MemoryId × MemImage)
    (h : update_step mod p = some mod') (id : MemoryId) (hne : p.1 ≠ id) :
    mod'.memories.get? id = mod.memories.get? id := by
  unfold update_step at h
  split at h
  · exact absurd h (by simp)
  · cases h
    simp only [List.get?_eq_getElem?]
    exact List.getElem?_set_ne hne

theorem update_go_preserves (l : List (MemoryId × MemImage)) (id : MemoryId)
    (hne : ∀ p ∈ l, p.1 ≠ id) :
    ∀ mod mod', l.foldlM update_step mod = some mod' →
      mod'.memories.get? id = mod.memories.get? id := by
  induction l with
  | nil =>
    intro mod mod' h
    simp only [List.foldlM_nil] at h
    cases h
    rfl
  | cons p rest ih =>
    intro mod mod' h
    simp only [List.foldlM_cons, Option.bind_eq_bind, Option.bind_eq_some'] at h
    obtain ⟨mod1, h1, h2⟩ := h
    have e2 := ih (fun q hq => hne q (List.mem_cons_of_mem p hq)) mod1 mod' h2
    have e1 := update_step_ne mod mod1 p h1 id (hne p (List.mem_cons_self p rest))
    rw [e2, e1]

/-- C6: after a successful write-back, every memory id present in the Image
(whose keys are duplicate-free, as `BTreeMap` iteration guarantees) has in
the module exactly one initialization segment, at offset 0, whose data is
that memory's full current buffer — regardless of the segments the module
had before. -/
theorem update_go_single (l : List (MemoryId × MemImage))
    (hnd : (l.map Prod.fst).Nodup) :
    ∀ m m', l.foldlM update_step m = some m' →
      ∀ p ∈ l, ∃ md, m'.memories.get? p.1 = some md ∧
        md.segments = [{ offset := 0, data := p.2.image }] := by
  induction l with
  | nil => intro m m' h p hp; exact absurd hp (by simp)
  | cons q rest ih =>
    intro m m' h p hp
    simp only [List.foldlM_cons, Option.bind_eq_bind, Option.bind_eq_some'] at h
    obtain ⟨mod1, h1, h2⟩ := h
    simp only [List.map_cons, List.nodup_cons] at hnd
    rcases List.mem_cons.mp hp with hqp | hrest
    · rw [hqp]
      have hpre : ∀ r ∈ rest, r.1 ≠ q.1 := by
        intro r hr hcontra
        exact hnd.1 (hcontra ▸ List.mem_map_of_mem Prod.fst hr)
      have hstable := update_go_preserves rest q.1 hpre mod1 m' h2
      unfold update_step at h1
      split at h1
      · exact absurd h1 (by simp)
      · next md hmd =>
        cases h1
        refine ⟨{ md with segments := [{ offset := 0, data := q.2.image }] },
          ?_, rfl⟩
        rw [hstable]
        have hlt : q.1 < m.memories.length := by
          by_contra hge
          rw [List.get?_eq_getElem?, List.getElem?_eq_none (Nat.le_of_not_lt hge)]
            at hmd
          exact absurd hmd (by simp)
        simp only [List.get?_eq_getElem?]
        exact List.getElem?_set_self hlt
    · exact ih hnd.2 mod1 m' h2 p hrest

/-- C6: after a successful write-back, every memory id present in the Image
(whose keys are duplicate-free, as `BTreeMap` iteration guarantees) has in
the module exactly one initialization segment, at offset 0, whose data is
that memory's full current buffer — regardless of the segments the module
had before. -/
theorem update_single_segment (m : WModule) (im : Image) (m' : WModule)
    (hnd : (im.memories.map Prod.fst).Nodup)
    (h : update m im = some m') :
    ∀ p ∈ im.memories, ∃ md, m'.memories.get? p.1 = some md ∧
      md.segments = [{ offset := 0, data := p.2.image }] :=
  update_go_single im.memories hnd m m' h

def exModuleC6 : WModule :=
  { memories :=
      [{ initial_pages := 1
         segments :=
           [{ offset := 0, data := [9] }, { offset := 3, data := [7, 7] }] }]
    globals := []
    tables := []
    funcs := []
    signatures := []
    imports := []
    exports := [] }

def exImageC6 : Image :=
  { memories := [(0, { image := [1, 2], len := 2 })]
    globals := []
    tables := []
    stack_pointer := none
    main_heap := some 0
    main_table := none }

theorem update_single_segment_witness :
    ∃ md, (WModule.mk
        [{ initial_pages := 1,
           segments := [{ offset := 0, data := [1, 2] }] }]
        [] [] [] [] [] []).memories.get? 0 = some md ∧
      md.segments = [{ offset := 0, data := [1, 2] }] :=
  update_single_segment exModuleC6 exImageC6
    (WModule.mk
      [{ initial_pages := 1, segments := [{ offset := 0, data := [1, 2] }] }]
      [] [] [] [] [] [])
    (by decide) (by decide)
    (0, { image := [1, 2], len := 2 }) (by decide)

/-! ## C5: built memory images -/

/-- Disjointness of two initialization segments' address ranges. -/
def segDisjoint (s t : MemorySegment) : Prop :=
  s.offset + s.data.length ≤ t.offset ∨ t.offset + t.data.length ≤ s.offset

theorem copy_segment_some (image : List Nat) (seg : MemorySegment)
    (image' : List Nat) (h : copy_segment image seg = some image') :
    seg.offset + seg.data.length ≤ image.length ∧
      image' = image.take seg.offset ++ seg.data ++
        image.drop (seg.offset + seg.data.length) := by
  unfold copy_segment at h
  split at h
  · exact ⟨by assumption, (Option.some.inj h).symm⟩
  · exact absurd h (by simp)

theorem copy_segment_length (image : List Nat) (seg : MemorySegment)
    (image' : List Nat) (h : copy_segment image seg = some image') :
    image'.length = image.length := by
  obtain ⟨hb, rfl⟩ := copy_segment_some image seg image' h
  have ht : (image.take seg.offset).length = seg.offset :=
    List.length_take_of_le (by omega)
  simp only [List.length_append, ht, List.length_drop]
  omega

theorem copy_segment_outside (image : List Nat) (seg : MemorySegment)
    (image' : List Nat) (h : copy_segment image seg = some image') (i : Nat)
    (hi : i < seg.offset ∨ seg.offset + seg.data.length ≤ i) :
    image'[i]? = image[i]? := by
  obtain ⟨hb, rfl⟩ := copy_segment_some image seg image' h
  have ht : (image.take seg.offset).length = seg.offset :=
    List.length_take_of_le (by omega)
  rw [List.append_assoc]
  rcases hi with hlt | hge
  · rw [List.getElem?_append_left (by omega)]
    exact List.getElem?_take_of_lt hlt
  · rw [List.getElem?_append_right (by omega), ht,
      List.getElem?_append_right (by omega), List.getElem?_drop]
    congr 1
    omega

theorem copy_segment_inside (image : List Nat) (seg : MemorySegment)
    (image' : List Nat) (h : copy_segment image seg = some image') (j : Nat)
    (hj : j < seg.data.length) :
    image'[seg.offset + j]? = seg.data[j]? := by
  obtain ⟨hb, rfl⟩ := copy_segment_some image seg image' h
  have ht : (image.take seg.offset).length = seg.offset :=
    List.length_take_of_le (by omega)
  rw [List.append_assoc, List.getElem?_append_right (by omega), ht,
    Nat.add_sub_cancel_left, List.getElem?_append_left hj]

theorem copy_fold_length (segs : List MemorySegment) :
    ∀ image image', segs.foldlM copy_segment image = some image' →
      image'.length = image.length := by
  induction segs with
  | nil =>
    intro image image' h
    simp only [List.foldlM_nil] at h
    cases h
    rfl
  | cons q rest ih =>
    intro image image' h
    simp only [List.foldlM_cons, Option.bind_eq_bind, Option.bind_eq_some'] at h
    obtain ⟨img1, h1, h2⟩ := h
    rw [ih img1 image' h2, copy_segment_length image q img1 h1]

theorem copy_fold_outside (segs : List MemorySegment) (i : Nat)
    (hout : ∀ s ∈ segs, i < s.offset ∨ s.offset + s.data.length ≤ i) :
    ∀ image image', segs.foldlM copy_segment image = some image' →
      image'[i]? = image[i]? := by
  induction segs with
  | nil =>
    intro image image' h
    simp only [List.foldlM_nil] at h
    cases h
    rfl
  | cons q rest ih =>
    intro image image' h
    simp only [List.foldlM_cons, Option.bind_eq_bind, Option.bind_eq_some'] at h
    obtain ⟨img1, h1, h2⟩ := h
    rw [ih (fun s hs => hout s (List.mem_cons_of_mem q hs)) img1 image' h2,
      copy_segment_outside image q img1 h1 i (hout q (List.mem_cons_self q rest))]

theorem copy_fold_covered (segs : List MemorySegment) (s : MemorySegment)
    (hmem : s ∈ segs) (hdisj : segs.Pairwise segDisjoint) :
    ∀ image image', segs.foldlM copy_segment image = some image' →
      ∀ j, j < s.data.length → image'[s.offset + j]? = s.data[j]? := by
  induction segs with
  | nil => exact absurd hmem (by simp)
  | cons q rest ih =>
    intro image image' h j hj
    simp only [List.foldlM_cons, Option.bind_eq_bind, Option.bind_eq_some'] at h
    obtain ⟨img1, h1, h2⟩ := h
    rw [List.pairwise_cons] at hdisj
    rcases List.mem_cons.mp hmem with hqs | hrest
    · have hout : ∀ t ∈ rest, s.offset + j < t.offset ∨
          t.offset + t.data.length ≤ s.offset + j := by
        intro t ht
        have := hdisj.1 t ht
        rw [← hqs] at this
        rcases this with hd | hd
        · left; omega
        · right; omega
      rw [copy_fold_outside rest (s.offset + j) hout img1 image' h2, hqs]
      rw [hqs] at hj
      exact copy_segment_inside image q img1 h1 j hj
    · exact ih hrest hdisj.2 img1 image' h2 j hj

/-- C5: a successfully built `MemImage` has `len = initial_pages * 65536` and
a buffer of exactly that length; every byte not covered by any
initialization segment is zero; and (for non-overlapping segments) each
segment's bytes appear verbatim at its offset. -/
theorem maybe_mem_image_spec (mem : MemoryData) (mi : MemImage)
    (h : maybe_mem_image mem = some mi) :
    mi.len = mem.initial_pages * 65536 ∧
    mi.image.length = mi.len ∧
    (∀ i, i < mi.len →
      (∀ s ∈ mem.segments, i < s.offset ∨ s.offset + s.data.length ≤ i) →
      mi.image[i]? = some 0) ∧
    (mem.segments.Pairwise segDisjoint →
      ∀ s ∈ mem.segments, ∀ j, j < s.data.length →
        mi.image[s.offset + j]? = s.data[j]?) := by
  unfold maybe_mem_image at h
  simp only [Option.map_eq_some'] at h
  obtain ⟨img, hfold, hmi⟩ := h
  rw [← hmi]
  refine ⟨rfl, ?_, ?_, ?_⟩
  · rw [copy_fold_length mem.segments _ img hfold]
    simp
  · intro i hi hout
    rw [copy_fold_outside mem.segments i hout _ img hfold]
    exact List.getElem?_replicate_of_lt hi
  · intro hdisj s hs j hj
    exact copy_fold_covered mem.segments s hs hdisj _ img hfold j hj

theorem maybe_mem_image_spec_witness :
    (0 : Nat) = 0 * 65536 ∧
    (List.length ([] : List Nat)) = 0 ∧
    (∀ i, i < 0 →
      (∀ s ∈ ([] : List MemorySegment),
        i < s.offset ∨ s.offset + s.data.length ≤ i) →
      ([] : List Nat)[i]? = some 0) ∧
    (([] : List MemorySegment).Pairwise segDisjoint →
      ∀ s ∈ ([] : List MemorySegment), ∀ j, j < s.data.length →
        ([] : List Nat)[s.offset + j]? = s.data[j]?) :=
  maybe_mem_image_spec { initial_pages := 0, segments := [] }
    { image := [], len := 0 } rfl

/-! ## C8: NUL-terminated string reads -/

theorem read_u8_some (m : MemImage) (addr b : Nat) (h : m.image[addr]? = some b) :
    m.read_u8 addr = .ok b := by
  unfold MemImage.read_u8
  rw [List.get?_eq_getElem?, h]

theorem read_u8_none (m : MemImage) (addr : Nat) (h : m.image[addr]? = none) :
    m.read_u8 addr = .error .oob := by
  unfold MemImage.read_u8
  rw [List.get?_eq_getElem?, h]

theorem read_u8_ok_iff (m : MemImage) (addr b : Nat) :
    m.read_u8 addr = .ok b ↔ m.image[addr]? = some b := by
  constructor
  · intro h
    unfold MemImage.read_u8 at h
    rw [List.get?_eq_getElem?] at h
    cases hh : m.image[addr]? with
    | none => rw [hh] at h; exact absurd h (by simp)
    | some c =>
      rw [hh] at h
      cases Except.ok.inj h
      rfl
  · exact read_u8_some m addr b

/-- One unfolding step of the `read_str` byte loop. -/
theorem read_str_go_eq (m : MemImage) (addr : Nat) :
    m.read_str_go addr =
      match m.read_u8 addr with
      | .error e => .error e
      | .ok b =>
        if b = 0 then .ok []
        else
          match m.read_str_go (addr + 1) with
          | .error e => .error e
          | .ok rest => .ok (b :: rest) := by
  rw [MemImage.read_str_go]
  cases hr : m.read_u8 addr <;> rfl

theorem read_str_go_ok (m : MemImage) :
    ∀ bs addr, m.read_str_go addr = .ok bs →
      (∀ i, i < bs.length → m.image[addr + i]? = bs[i]? ∧ bs[i]? ≠ some 0) ∧
        m.image[addr + bs.length]? = some 0 := by
  intro bs
  induction bs with
  | nil =>
    intro addr h
    rw [read_str_go_eq] at h
    split at h
    · exact absurd h (by simp)
    · next b hb =>
      by_cases hz : b = 0
      · refine ⟨fun i hi => absurd hi (by simp), ?_⟩
        simp only [List.length_nil, Nat.add_zero]
        rw [read_u8_ok_iff] at hb
        rw [hb, hz]
      · rw [if_neg hz] at h
        split at h
        · exact absurd h (by simp)
        · exact absurd h (by simp)
  | cons hd tl ih =>
    intro addr h
    rw [read_str_go_eq] at h
    split at h
    · exact absurd h (by simp)
    · next b hb =>
      by_cases hz : b = 0
      · rw [if_pos hz] at h
        exact absurd h (by simp)
      · rw [if_neg hz] at h
        split at h
        · exact absurd h (by simp)
        · next rest hrest =>
          have hinj := Except.ok.inj h
          have hbhd : b = hd := (List.cons.inj hinj).1
          have hresttl : rest = tl := (List.cons.inj hinj).2
          rw [hresttl] at hrest
          obtain ⟨ihc, iht⟩ := ih (addr + 1) hrest
          constructor
          · intro i hi
            cases i with
            | zero =>
              rw [read_u8_ok_iff] at hb
              simp only [Nat.add_zero, List.getElem?_cons_zero]
              constructor
              · rw [hb, hbhd]
              · simp only [Ne, Option.some.injEq]
                rw [← hbhd]
                exact hz
            | succ i' =>
              have he : addr + (i' + 1) = (addr + 1) + i' := by omega
              rw [he]
              have := ihc i' (by simpa using hi)
              simpa using this
          · have he : addr + (hd :: tl).length = (addr + 1) + tl.length := by
              simp only [List.length_cons]; omega
            rw [he]
            exact iht

theorem read_str_go_complete (m : MemImage) :
    ∀ bs addr,
      (∀ i, i < bs.length → m.image[addr + i]? = bs[i]? ∧ bs[i]? ≠ some 0) →
      m.image[addr + bs.length]? = some 0 →
      m.read_str_go addr = .ok bs := by
  intro bs
  induction bs with
  | nil =>
    intro addr hc ht
    simp only [List.length_nil, Nat.add_zero] at ht
    rw [read_str_go_eq]
    simp [read_u8_some m addr 0 ht]
  | cons hd tl ih =>
    intro addr hc ht
    have h0 := hc 0 (by simp)
    rw [Nat.add_zero] at h0
    have hhd : m.image[addr]? = some hd := by simpa using h0.1
    have hz : hd ≠ 0 := by
      intro hcontra
      exact h0.2 (by simp [hcontra])
    have hrec : m.read_str_go (addr + 1) = .ok tl := by
      refine ih (addr + 1) ?_ ?_
      · intro i hi
        have he : (addr + 1) + i = addr + (i + 1) := by omega
        rw [he]
        have := hc (i + 1) (by simpa using hi)
        simpa using this
      · have he : (addr + 1) + tl.length = addr + (hd :: tl).length := by
          simp only [List.length_cons]; omega
        rw [he]
        exact ht
    rw [read_str_go_eq]
    simp [read_u8_some m addr hd hhd, hz, hrec]

theorem read_str_go_oob (m : MemImage) :
    ∀ n addr, (∀ i, i < n → ∃ b, m.image[addr + i]? = some b ∧ b ≠ 0) →
      m.image[addr + n]? = none →
      m.read_str_go addr = .error .oob := by
  intro n
  induction n with
  | zero =>
    intro addr hc ht
    rw [Nat.add_zero] at ht
    rw [read_str_go_eq]
    simp [read_u8_none m addr ht]
  | succ n' ih =>
    intro addr hc ht
    obtain ⟨b, hb, hbz⟩ := hc 0 (by omega)
    rw [Nat.add_zero] at hb
    have hrec : m.read_str_go (addr + 1) = .error .oob := by
      refine ih (addr + 1) ?_ ?_
      · intro i hi
        have he : (addr + 1) + i = addr + (i + 1) := by omega
        rw [he]
        exact hc (i + 1) (by omega)
      · have he : (addr + 1) + n' = addr + (n' + 1) := by omega
        rw [he]
        exact ht
    rw [read_str_go_eq]
    simp [read_u8_some m addr b hb, hbz, hrec]

/-- C8: for a memory id present in the Image, `read_str` terminates with a
value or an error: it returns exactly the bytes from the start address up to
but excluding the first zero byte when they exist and are valid UTF-8; it
fails with out-of-bounds when the walk runs past the buffer before finding a
terminator; and it fails with a UTF-8 error when the accumulated bytes are
invalid. -/
theorem read_str_spec (im : Image) (id : MemoryId) (mi : MemImage)
    (hid : alookup im.memories id = some mi) :
    (∀ addr bs, im.read_str id addr = some (.ok bs) ↔
      ((∀ i, i < bs.length → mi.image[addr + i]? = bs[i]? ∧ bs[i]? ≠ some 0) ∧
        mi.image[addr + bs.length]? = some 0 ∧ utf8Valid bs = true)) ∧
    (∀ addr n, (∀ i, i < n → ∃ b, mi.image[addr + i]? = some b ∧ b ≠ 0) →
      mi.image[addr + n]? = none →
      im.read_str id addr = some (.error .oob)) ∧
    (∀ addr bs, mi.read_str_go addr = .ok bs → utf8Valid bs = false →
      im.read_str id addr = some (.error .utf8)) := by
  refine ⟨?_, ?_, ?_⟩
  · intro addr bs
    simp only [Image.read_str, hid, Option.map_some', Option.some.injEq]
    constructor
    · intro h
      unfold MemImage.read_str at h
      split at h
      · exact absurd h (by simp)
      · next bs0 hbs0 =>
        split at h
        · next hvalid =>
          cases Except.ok.inj h
          obtain ⟨hc, ht⟩ := read_str_go_ok mi bs addr hbs0
          exact ⟨hc, ht, hvalid⟩
        · exact absurd h (by simp)
    · rintro ⟨hc, ht, hvalid⟩
      unfold MemImage.read_str
      rw [read_str_go_complete mi bs addr hc ht]
      simp [hvalid]
  · intro addr n hc ht
    simp only [Image.read_str, hid, Option.map_some', Option.some.injEq]
    unfold MemImage.read_str
    rw [read_str_go_oob mi n addr hc ht]
  · intro addr bs hgo hinvalid
    simp only [Image.read_str, hid, Option.map_some', Option.some.injEq]
    unfold MemImage.read_str
    rw [hgo]
    simp [hinvalid]

/-- A snapshot whose single memory holds the bytes of `"hi\0"`. -/
def exImageC8 : Image :=
  { memories := [(0, { image := [104, 105, 0], len := 3 })]
    globals := []
    tables := []
    stack_pointer := none
    main_heap := some 0
    main_table := none }

theorem read_str_spec_witness :
    (∀ addr bs, exImageC8.read_str 0 addr = some (.ok bs) ↔
      ((∀ i, i < bs.length →
          ([104, 105, 0] : List Nat)[addr + i]? = bs[i]? ∧ bs[i]? ≠ some 0) ∧
        ([104, 105, 0] : List Nat)[addr + bs.length]? = some 0 ∧
        utf8Valid bs = true)) ∧
    (∀ addr n,
      (∀ i, i < n → ∃ b, ([104, 105, 0] : List Nat)[addr + i]? = some b ∧ b ≠ 0) →
      ([104, 105, 0] : List Nat)[addr + n]? = none →
      exImageC8.read_str 0 addr = some (.error .oob)) ∧
    (∀ addr bs,
      MemImage.read_str_go { image := [104, 105, 0], len := 3 } addr = .ok bs →
      utf8Valid bs = false →
      exImageC8.read_str 0 addr = some (.error .utf8)) :=
  read_str_spec exImageC8 0 { image := [104, 105, 0], len := 3 }
    (by simp [exImageC8, alookup])

end Weval
